import Mathlib

/-!
# Verification of the triple-buffer rotator and the reverse-RCU collector

This development embeds the two components of the repository:

* the triple-slot rotation primitive (the "rotator"), used in two versions:
  the forward `ThreeStateRcu` (exercised by `src/three_state_rcu_test.cc`)
  and the `Local3StateRcu` used by the collector, and
* the multi-producer/single-collector accumulator `ReverseRcu`
  (`src/simple_rcu/reverse_rcu.h`), with its `Local` producer handles and
  reentrant `Snapshot` write sessions.

The headers `three_state_rcu.h` and `local_3state_rcu.h` are not part of the
sources; their state machines are modelled from the specification, with the
observable behavior of `ThreeStateRcu` pinned by the unit test
`src/three_state_rcu_test.cc`, which is part of the sources.

A rotator state is three value slots plus a role assignment: one slot is
exposed for writing (`Update()` in the forward naming), one for reading
(`Read()`), and the third (the relay) is hidden, tagged `Staged` when it
carries a value not yet consumed and `Free` otherwise.  Slot identity is
modelled by the three indices; physical aliasing of the C++ references
corresponds to equality of indices.
-/

set_option autoImplicit false
set_option linter.unusedSectionVars false

namespace SimpleRcu

variable {M : Type} [AddCommMonoid M]

/-- Modelled from the spec: the state of the three-slot rotation primitive of
`three_state_rcu.h` / `local_3state_rcu.h` (neither header is under `src/`).
Three value slots (`vals`), the index of the slot exposed to the reader
(`readIdx`), the index of the slot exposed to the updater (`updateIdx`), the
index of the hidden relay slot (`relayIdx`), and the relay tag (`staged =
true` means `Staged`, `false` means `Free`). -/
structure Rcu3 (M : Type) where
  vals : Fin 3 → M
  readIdx : Fin 3
  updateIdx : Fin 3
  relayIdx : Fin 3
  staged : Bool

namespace Rcu3

/-- The value reachable through the reader-side reference `Read()`. -/
def Read (s : Rcu3 M) : M := s.vals s.readIdx

/-- The value reachable through the updater-side reference `Update()`. -/
def Update (s : Rcu3 M) : M := s.vals s.updateIdx

/-- Store `v` through the updater-side reference (`rcu.Update() = v`). -/
def setUpdate (s : Rcu3 M) (v : M) : Rcu3 M :=
  { s with vals := Function.update s.vals s.updateIdx v }

/-- Store `v` through the reader-side reference (`rcu.Read() = v`). -/
def setRead (s : Rcu3 M) (v : M) : Rcu3 M :=
  { s with vals := Function.update s.vals s.readIdx v }

/-- Accumulate `v` into the reader-side slot (`rcu.Read() += v`). -/
def addRead (s : Rcu3 M) (v : M) : Rcu3 M :=
  { s with vals := Function.update s.vals s.readIdx (s.vals s.readIdx + v) }

/-- The three role indices denote pairwise distinct physical slots. -/
def Distinct3 (s : Rcu3 M) : Prop :=
  s.readIdx ≠ s.updateIdx ∧ s.readIdx ≠ s.relayIdx ∧ s.updateIdx ≠ s.relayIdx

instance (s : Rcu3 M) : Decidable (Distinct3 s) := by
  unfold Distinct3; infer_instance

end Rcu3

namespace ThreeStateRcu

/-- Modelled from the spec: `ThreeStateRcu<T>::TriggerUpdate` of the missing
`three_state_rcu.h`.  The write slot and the relay slot swap identities and
the relay becomes `Staged`; the boolean reports whether the relay was `Free`
(that is, whether the reader had consumed the previously published value).
When the relay still held an unconsumed `Staged` value, that slot is
reclaimed as the new write slot, so a slow reader coalesces updates
(last-write-wins) rather than queueing them.  The unconditional rotation and
the meaning of the boolean are pinned by `src/three_state_rcu_test.cc`
(`UpdateAndRead`: the first call on a fresh rotator returns `false`, yet the
written 42 becomes readable and `Update()` moves to another slot). -/
def TriggerUpdate (s : Rcu3 M) : Rcu3 M × Bool :=
  ({ s with updateIdx := s.relayIdx, relayIdx := s.updateIdx, staged := true },
   !s.staged)

/-- Modelled from the spec: `ThreeStateRcu<T>::TriggerRead` — the
`try_consume` operation.  If the relay is `Staged`, the read slot and the
relay swap identities, the relay becomes `Free`, and the call returns `true`;
otherwise it is a no-op returning `false`. -/
def TriggerRead (s : Rcu3 M) : Rcu3 M × Bool :=
  if s.staged then
    ({ s with readIdx := s.relayIdx, relayIdx := s.readIdx, staged := false },
     true)
  else (s, false)

/-- Modelled from the spec: `force_make_readable` on the forward rotator —
an unconditional `TriggerUpdate` (stages the write slot regardless of the
relay tag). -/
def ForceUpdate (s : Rcu3 M) : Rcu3 M := (TriggerUpdate s).1

/-- Modelled from the spec: the freshly constructed forward rotator.  All
three slots hold the default value and the roles are distinct.  The relay of
a fresh `ThreeStateRcu` behaves as `Staged`: `src/three_state_rcu_test.cc`
shows the first `TriggerUpdate` reporting `false` (the message: Read has not advanced
yet) and the first `TriggerRead` of `AlternatingUpdatesAndReads`
succeeding.  (The spec flags this boundary case as implementation-defined;
the test is the authority here.) -/
def start : Rcu3 M := ⟨fun _ => 0, 0, 1, 2, true⟩

end ThreeStateRcu

/-- C4: try_consume contract: for every rotator state in which the Relay slot
is Staged, `TriggerRead` swaps the identities of the Read and Relay slots
(the staged value becomes the exposed Read slot, the old Read slot becomes
Relay marked Free) and returns true; for every state in which Relay is Free,
it is a no-op returning false, and in particular the identity and
value of the Read slot are unchanged by the failed call. -/
theorem trigger_read_contract (s : Rcu3 M) :
    (ThreeStateRcu.TriggerRead s).2 = s.staged ∧
    (ThreeStateRcu.TriggerRead s).1.readIdx =
      (if s.staged then s.relayIdx else s.readIdx) ∧
    (ThreeStateRcu.TriggerRead s).1.relayIdx =
      (if s.staged then s.readIdx else s.relayIdx) ∧
    (ThreeStateRcu.TriggerRead s).1.staged = false ∧
    (ThreeStateRcu.TriggerRead s).1.updateIdx = s.updateIdx ∧
    (ThreeStateRcu.TriggerRead s).1.vals = s.vals ∧
    (ThreeStateRcu.TriggerRead s).1.Read =
      (if s.staged then s.vals s.relayIdx else s.Read) := by
  cases h : s.staged with
  | true => simp [ThreeStateRcu.TriggerRead, Rcu3.Read, h]
  | false => simp [ThreeStateRcu.TriggerRead, Rcu3.Read, h]

/-- C3 counterexample: the claim asserts that on the initial state of a
freshly constructed rotator the Relay is Free and `TriggerUpdate` returns
true, and that when Relay is Staged the call is a no-op.  Replaying the
prefix of `ThreeStateRcuTest.UpdateAndRead` (`src/three_state_rcu_test.cc`)
refutes it: on the fresh rotator with 42 written to the write slot,
`TriggerUpdate` returns false (the `EXPECT_FALSE` of the test), yet it is not a
no-op — the write-slot identity changes, the new write slot reads 0, and the
42 was staged, so the following `TriggerRead` succeeds and exposes 42.  So
whichever tag the fresh Relay is given, the claimed dichotomy fails at this
input. -/
theorem first_trigger_update_refutes_claim :
    (ThreeStateRcu.start (M := ℤ)).staged = true ∧
    (ThreeStateRcu.TriggerUpdate
      (Rcu3.setUpdate (ThreeStateRcu.start (M := ℤ)) 42)).2 = false ∧
    (ThreeStateRcu.TriggerUpdate
      (Rcu3.setUpdate (ThreeStateRcu.start (M := ℤ)) 42)).1.updateIdx ≠
      (Rcu3.setUpdate (ThreeStateRcu.start (M := ℤ)) 42).updateIdx ∧
    (ThreeStateRcu.TriggerUpdate
      (Rcu3.setUpdate (ThreeStateRcu.start (M := ℤ)) 42)).1.Update = 0 ∧
    (ThreeStateRcu.TriggerRead (ThreeStateRcu.TriggerUpdate
      (Rcu3.setUpdate (ThreeStateRcu.start (M := ℤ)) 42)).1).2 = true ∧
    (ThreeStateRcu.TriggerRead (ThreeStateRcu.TriggerUpdate
      (Rcu3.setUpdate (ThreeStateRcu.start (M := ℤ)) 42)).1).1.Read = 42 := by
  refine ⟨rfl, rfl, ?_, rfl, rfl, rfl⟩
  decide

/-- C3 (amended): `TriggerUpdate` always swaps the identities of the Write
and Relay slots and marks Relay Staged — when Relay already held an
unconsumed Staged value, that slot is reclaimed as the new Write slot
(coalescing) rather than the call being a no-op — and it returns true
exactly when Relay was Free; the fresh rotator starts with the Relay
behaving as Staged, so the very first call returns false.  Slot contents and
the Read-slot identity are untouched. -/
theorem trigger_update_contract (s : Rcu3 M) :
    (ThreeStateRcu.TriggerUpdate s).2 = !s.staged ∧
    (ThreeStateRcu.TriggerUpdate s).1.relayIdx = s.updateIdx ∧
    (ThreeStateRcu.TriggerUpdate s).1.updateIdx = s.relayIdx ∧
    (ThreeStateRcu.TriggerUpdate s).1.staged = true ∧
    (ThreeStateRcu.TriggerUpdate s).1.readIdx = s.readIdx ∧
    (ThreeStateRcu.TriggerUpdate s).1.vals = s.vals ∧
    (ThreeStateRcu.start (M := M)).staged = true := by
  refine ⟨rfl, rfl, rfl, rfl, rfl, rfl, rfl⟩

/-- The rotator states reachable from the fresh forward rotator by writes
through the two exposed references and by the three rotation operations. -/
inductive Reach : Rcu3 M → Prop where
  | base : Reach ThreeStateRcu.start
  | setU (s : Rcu3 M) (v : M) : Reach s → Reach (Rcu3.setUpdate s v)
  | setR (s : Rcu3 M) (v : M) : Reach s → Reach (Rcu3.setRead s v)
  | pub (s : Rcu3 M) : Reach s → Reach (ThreeStateRcu.TriggerUpdate s).1
  | con (s : Rcu3 M) : Reach s → Reach (ThreeStateRcu.TriggerRead s).1
  | force (s : Rcu3 M) : Reach s → Reach (ThreeStateRcu.ForceUpdate s)

lemma reach_distinct {s : Rcu3 M} (h : Reach s) : s.Distinct3 := by
  induction h with
  | base => refine ⟨?_, ?_, ?_⟩ <;> simp [ThreeStateRcu.start, Fin.ext_iff]
  | setU s v _ ih => exact ih
  | setR s v _ ih => exact ih
  | pub s _ ih =>
    obtain ⟨h1, h2, h3⟩ := ih
    exact ⟨h2, h1, fun h => h3 h.symm⟩
  | con s _ ih =>
    obtain ⟨h1, h2, h3⟩ := ih
    by_cases hs : s.staged
    · simp only [ThreeStateRcu.TriggerRead, hs, if_pos]
      exact ⟨fun h => h3 h.symm, fun h => h2 h.symm, fun h => h1 h.symm⟩
    · simp only [ThreeStateRcu.TriggerRead, hs, if_neg, Bool.false_eq_true,
        not_false_iff]
      exact ⟨h1, h2, h3⟩
  | force s _ ih =>
    obtain ⟨h1, h2, h3⟩ := ih
    exact ⟨h2, h1, fun h => h3 h.symm⟩

/-- C5: no-aliasing invariant: in every state of a rotator reachable from
the initial state by any sequence of writes, `TriggerUpdate`, `TriggerRead`
and `ForceUpdate` calls, the reference returned by `Update()` and the
reference returned by `Read()` denote distinct physical storage (the two
role indices differ). -/
theorem rotator_no_aliasing (s : Rcu3 M) (h : Reach s) :
    s.readIdx ≠ s.updateIdx :=
  (reach_distinct h).1

/-- Witness for C5 at a concrete reachable state: publish then consume from
the fresh rotator. -/
theorem rotator_no_aliasing_witness :
    Reach (ThreeStateRcu.TriggerRead
      (ThreeStateRcu.TriggerUpdate (ThreeStateRcu.start (M := ℤ))).1).1 ∧
    (ThreeStateRcu.TriggerRead
      (ThreeStateRcu.TriggerUpdate (ThreeStateRcu.start (M := ℤ))).1).1.readIdx ≠
    (ThreeStateRcu.TriggerRead
      (ThreeStateRcu.TriggerUpdate (ThreeStateRcu.start (M := ℤ))).1).1.updateIdx :=
  ⟨Reach.con _ (Reach.pub _ Reach.base),
   rotator_no_aliasing _ (Reach.con _ (Reach.pub _ Reach.base))⟩

/-- One iteration of `ThreeStateRcuTest.AlternatingUpdatesAndReads`
(`src/three_state_rcu_test.cc`): store `i` through `Update()`, publish,
consume, then let the reader store `-i` through `Read()`. -/
def altIter (i : ℕ) (s : Rcu3 ℤ) : Rcu3 ℤ :=
  Rcu3.setRead
    (ThreeStateRcu.TriggerRead
      (ThreeStateRcu.TriggerUpdate (Rcu3.setUpdate s (i : ℤ))).1).1
    (-(i : ℤ))

/-- The rotator state at the head of loop iteration `k + 1` of
`AlternatingUpdatesAndReads`: the test first stores 1 through `Read()` and
performs one `TriggerRead`, then runs the loop body `k` times. -/
def altHead : ℕ → Rcu3 ℤ
  | 0 => (ThreeStateRcu.TriggerRead
      (Rcu3.setRead ThreeStateRcu.start 1)).1
  | k + 1 => altIter (k + 1) (altHead k)

lemma altIter_inv (s : Rcu3 ℤ) (i : ℕ) (hs : s.staged = false)
    (hd1 : s.readIdx ≠ s.updateIdx) (hd2 : s.readIdx ≠ s.relayIdx)
    (hd3 : s.updateIdx ≠ s.relayIdx) :
    (altIter i s).staged = false ∧
    (altIter i s).Read = -(i : ℤ) ∧
    (altIter i s).vals (altIter i s).relayIdx = s.Read ∧
    (altIter i s).Distinct3 := by
  obtain ⟨v, r, u, y, st⟩ := s
  dsimp only at hs hd1 hd2 hd3
  subst hs
  simp only [altIter, Rcu3.setUpdate, ThreeStateRcu.TriggerUpdate,
    ThreeStateRcu.TriggerRead, Rcu3.setRead, Rcu3.Read, Rcu3.Distinct3,
    if_true]
  refine ⟨trivial, ?_, ?_, hd3, Ne.symm hd1, Ne.symm hd2⟩
  · rw [Function.update_same]
  · rw [Function.update_noteq hd1, Function.update_noteq hd1]

lemma altHead_inv (k : ℕ) :
    (altHead k).staged = false ∧
    (altHead k).Read = -(k : ℤ) ∧
    (altHead k).vals (altHead k).relayIdx = 1 - (k : ℤ) ∧
    (altHead k).Distinct3 := by
  induction k with
  | zero => exact ⟨rfl, by decide, by decide, by decide⟩
  | succ k ih =>
    obtain ⟨hs, hr, hy, hd1, hd2, hd3⟩ := ih
    obtain ⟨gs, gr, gy, gd⟩ := altIter_inv (altHead k) (k + 1) hs hd1 hd2 hd3
    have hstep : altHead (k + 1) = altIter (k + 1) (altHead k) := rfl
    rw [hstep]
    refine ⟨gs, ?_, ?_, gd⟩
    · rw [gr]
    · rw [gy, hr]; push_cast; ring

/-- C9: buffer recycling in the alternating write/consume test: at the head
of loop iteration `i = k + 1` of `AlternatingUpdatesAndReads`, writing `i`
into the write slot and calling `TriggerUpdate` succeeds (returns true) and
the slot that becomes the new Write slot holds exactly `-(i - 2) = 1 - k` —
the content left in it two rotations earlier (the value the reader stored
two iterations before, down to the pre-loop store of 1 made by the harness), matching
`EXPECT_EQ(rcu.Update(), -(i - 2))` in the test. -/
theorem buffer_recycling_two_iterations (k : ℕ) :
    (ThreeStateRcu.TriggerUpdate
      (Rcu3.setUpdate (altHead k) ((k : ℤ) + 1))).2 = true ∧
    (ThreeStateRcu.TriggerUpdate
      (Rcu3.setUpdate (altHead k) ((k : ℤ) + 1))).1.Update = 1 - (k : ℤ) := by
  obtain ⟨hs, hr, hy, hd1, hd2, hd3⟩ := altHead_inv k
  constructor
  · simp only [ThreeStateRcu.TriggerUpdate, Rcu3.setUpdate, hs]
    rfl
  · simp only [ThreeStateRcu.TriggerUpdate, Rcu3.setUpdate, Rcu3.Update]
    rw [Function.update_noteq (Ne.symm hd3)]
    exact hy

namespace Local3StateRcu

/-- Modelled from the spec: `Local3StateRcu<T>::TryRead` of the missing
`local_3state_rcu.h`, as used by `ReverseRcu` where the producer writes
through `Read()` — in the abstract rotator of the spec, the slot of this side is the
Write slot and `TryRead` is its best-effort `try_publish`: if the Relay is
`Free`, the producer-side slot and the Relay swap identities and the Relay
becomes `Staged`, returning true; if the Relay is already `Staged`, the call
is a no-op returning false (the producer keeps accumulating into the same
slot — coalescing, no queueing). -/
def TryRead (s : Rcu3 M) : Rcu3 M × Bool :=
  if s.staged then (s, false)
  else ({ s with readIdx := s.relayIdx, relayIdx := s.readIdx, staged := true },
        true)

/-- Modelled from the spec: `Local3StateRcu<T>::ForceUpdate` — the
`force_make_readable`-equivalent forced commit of spec §4.2: whatever is
currently in the producer-side slot (`Read()`, the abstract Write slot)
becomes the collector-side slot (`Update()`, the abstract Read slot), the
old Relay slot becomes the new producer slot, the old collector-side slot
becomes the Relay, and the Relay is marked `Staged` regardless of its prior
state.  Slot contents are untouched; only the role assignment rotates. -/
def ForceUpdate (s : Rcu3 M) : Rcu3 M :=
  { s with updateIdx := s.readIdx, readIdx := s.relayIdx,
           relayIdx := s.updateIdx, staged := true }

/-- Modelled from the spec: the freshly constructed `Local3StateRcu`
(`local_rcu_()` in the constructor of `Local`): three distinct default-valued
slots, Relay `Free`. -/
def fresh : Rcu3 M := ⟨fun _ => 0, 0, 1, 2, false⟩

end Local3StateRcu

/-- The state of a `ReverseRcu<T>::Local` producer handle: its private
rotator `local_rcu_` and the reentrancy counter `snapshot_depth_`
(`int_fast16_t` in the source, modelled as ℤ). -/
structure Local (M : Type) where
  rcu3 : Rcu3 M
  depth : ℤ

/-- The constructor body of `Local` before registration: member-initializes
`snapshot_depth_(0)` and `local_rcu_()`, then calls
`local_rcu_.ForceUpdate()`. -/
def Local.make : Local M := ⟨Local3StateRcu.ForceUpdate Local3StateRcu.fresh, 0⟩

/-- `Local::Collect()`: `local_rcu_.ForceUpdate()` followed by
`absl::exchange(local_rcu_.Update(), T())` — returns the committed
contribution and resets that slot to the default value. -/
def Local.Collect (l : Local M) : M × Local M :=
  let f := Local3StateRcu.ForceUpdate l.rcu3
  (f.Update, ⟨{ f with vals := Function.update f.vals f.updateIdx 0 }, l.depth⟩)

/-- Construction of a `Snapshot` borrowing the handle (`Local::Write()`, or
the `Snapshot` copy/move constructors, which all delegate to
`Snapshot(Local&)`): increments `snapshot_depth_`. -/
def Local.snapBegin (l : Local M) : Local M := { l with depth := l.depth + 1 }

/-- Destruction of a `Snapshot`: decrements `snapshot_depth_` and, exactly
when the counter reaches zero, attempts the best-effort publish
`local_rcu_.TryRead()`. -/
def Local.snapEnd (l : Local M) : Local M :=
  if l.depth - 1 = 0 then ⟨(Local3StateRcu.TryRead l.rcu3).1, l.depth - 1⟩
  else ⟨l.rcu3, l.depth - 1⟩

/-- A write through a live `Snapshot` (`*snapshot += v`): accumulates into
the rotator slot behind `local_rcu_.Read()`. -/
def Local.write (l : Local M) (v : M) : Local M :=
  { l with rcu3 := Rcu3.addRead l.rcu3 v }

/-- The state of a `ReverseRcu<T>` collector together with its registered
producer handles: the guarded accumulator `value_`, the registry `threads_`
(position = handle identity, `none` once destroyed), plus two observation
fields — `outs`, the values returned by the `Collect()` calls so far, and
`written`, the running combine-fold of all values written through
snapshots. -/
structure ReverseRcu (M : Type) where
  value : M
  threads : List (Option (Local M))
  outs : List M
  written : M

/-- The operations a program can perform against a `ReverseRcu` and its
handles: construct a handle, destroy handle `h`, open a (possibly nested)
write session on `h`, close the innermost open session on `h`, write `v`
through the current session of `h`, and call `ReverseRcu::Collect()`. -/
inductive Ev (M : Type) where
  | create
  | destroy (h : ℕ)
  | snap (h : ℕ)
  | unsnap (h : ℕ)
  | write (h : ℕ) (v : M)
  | collect

namespace ReverseRcu

/-- The contribution `Collect()` extracts from one registry entry. -/
def extractOf : Option (Local M) → M
  | none => 0
  | some l => (Local.Collect l).1

/-- The state a registry entry is left in by `Collect()`. -/
def afterCollect : Option (Local M) → Option (Local M)
  | none => none
  | some l => (Local.Collect l).2

/-- Look up registry entry `n` (the handle with identity `n`); `none` for a
destroyed or never-created handle. -/
def getHandle : List (Option (Local M)) → ℕ → Option (Local M)
  | [], _ => none
  | o :: _, 0 => o
  | _ :: ts, n + 1 => getHandle ts n

/-- One step of the system.  `create` appends a fresh registered handle
(constructor: `ForceUpdate`, then insertion into `threads_`); `destroy`
folds the `Collect()` of the handle into `value_` and erases it from the
registry (`~Local`); `snap`/`unsnap`/`write` act on the sessions of the handle;
`collect` is `ReverseRcu::Collect()`: it accumulates every registered
every registered `Collect()` result into `value_` and returns `absl::exchange(value_,
T())`, recorded in `outs`.  Events naming a dead or unknown handle are
no-ops. -/
def exec (s : ReverseRcu M) : Ev M → ReverseRcu M
  | .create => { s with threads := s.threads ++ [some Local.make] }
  | .destroy h =>
    match getHandle s.threads h with
    | none => s
    | some l =>
      { s with value := s.value + (Local.Collect l).1,
               threads := s.threads.set h none }
  | .snap h =>
    match getHandle s.threads h with
    | none => s
    | some l => { s with threads := s.threads.set h (some l.snapBegin) }
  | .unsnap h =>
    match getHandle s.threads h with
    | none => s
    | some l => { s with threads := s.threads.set h (some l.snapEnd) }
  | .write h v =>
    match getHandle s.threads h with
    | none => s
    | some l =>
      { s with threads := s.threads.set h (some (l.write v)),
               written := s.written + v }
  | .collect =>
    { value := 0,
      threads := s.threads.map afterCollect,
      outs := s.outs ++ [s.value + (s.threads.map extractOf).sum],
      written := s.written }

/-- A freshly constructed `ReverseRcu`: accumulator `T()`, empty registry. -/
def startSys : ReverseRcu M := ⟨0, [], [], 0⟩

/-- Run a finite sequence of operations against a fresh `ReverseRcu`. -/
def run (t : List (Ev M)) : ReverseRcu M := t.foldl exec startSys

end ReverseRcu

/-- C2: the concrete integer scenario of the spec (combine = addition).  One
producer handle writing 5 and then 7 in two separate non-nested sessions:
the first `Collect()` returns 12 and an immediately following `Collect()`
returns 0.  Two producer handles each writing 3 inside a session and then
destroyed before any `Collect()`: a subsequent `Collect()` returns 6. -/
theorem reverse_rcu_concrete_scenario :
    (ReverseRcu.run ([.create, .snap 0, .write 0 5, .unsnap 0, .snap 0,
      .write 0 7, .unsnap 0, .collect, .collect] : List (Ev ℤ))).outs =
      [12, 0] ∧
    (ReverseRcu.run ([.create, .create, .snap 0, .write 0 3, .unsnap 0,
      .snap 1, .write 1 3, .unsnap 1, .destroy 0, .destroy 1, .collect] :
      List (Ev ℤ))).outs = [6] := by
  constructor <;> decide

namespace ReverseRcu

/-- Invariant of a registered producer handle in the collector flow: its
relay is `Staged` (so the best-effort publish at session end is a no-op and
the session slot stays stable), the three role indices are distinct, and
every slot other than the current producer write slot has already been
drained to the default value. -/
def LInv (l : Local M) : Prop :=
  l.rcu3.staged = true ∧ l.rcu3.Distinct3 ∧
  l.rcu3.vals l.rcu3.updateIdx = 0 ∧ l.rcu3.vals l.rcu3.relayIdx = 0

/-- `LInv` lifted to registry entries. -/
def OInv : Option (Local M) → Prop
  | none => True
  | some l => LInv l

/-- The total content of the three rotator slots of a handle. -/
def slotSum (l : Local M) : M := l.rcu3.vals 0 + l.rcu3.vals 1 + l.rcu3.vals 2

/-- The total content still buffered in one registry entry. -/
def pendOf : Option (Local M) → M
  | none => 0
  | some l => slotSum l

/-- The global accounting invariant: every registered handle satisfies
`LInv`, and the combine-fold of the values already returned by `Collect()`
plus everything still buffered (the accumulator `value_` and the registered
slots of the registered handles) equals the combine-fold of everything ever written. -/
def Good (s : ReverseRcu M) : Prop :=
  (∀ o ∈ s.threads, OInv o) ∧
  s.outs.sum + (s.value + (s.threads.map pendOf).sum) = s.written

lemma cover3 : ∀ (r u y i : Fin 3), r ≠ u → r ≠ y → u ≠ y →
    i = r ∨ i = u ∨ i = y := by decide

lemma sum3_eq_of (f : Fin 3 → M) (r : Fin 3) (h : ∀ i, i ≠ r → f i = 0) :
    f 0 + f 1 + f 2 = f r := by
  fin_cases r
  · rw [h 1 (by decide), h 2 (by decide), add_zero, add_zero]; rfl
  · rw [h 0 (by decide), h 2 (by decide), zero_add, add_zero]; rfl
  · rw [h 0 (by decide), h 1 (by decide), zero_add, zero_add]; rfl

lemma collect_fst (l : Local M) : (Local.Collect l).1 = l.rcu3.Read := rfl

lemma collect_LInv {l : Local M} (h : LInv l) : LInv (Local.Collect l).2 := by
  obtain ⟨hst, ⟨hd1, hd2, hd3⟩, hu, hy⟩ := h
  refine ⟨rfl, ⟨fun q => hd2 q.symm, fun q => hd3 q.symm, hd1⟩, ?_, ?_⟩
  · exact Function.update_same _ _ _
  · show Function.update l.rcu3.vals l.rcu3.readIdx 0 l.rcu3.updateIdx = 0
    rw [Function.update_noteq (Ne.symm hd1)]
    exact hu

lemma collect_pend_zero {l : Local M} (h : LInv l) :
    slotSum (Local.Collect l).2 = 0 := by
  obtain ⟨hst, ⟨hd1, hd2, hd3⟩, hu, hy⟩ := h
  have hz : ∀ i, Function.update l.rcu3.vals l.rcu3.readIdx 0 i = 0 := by
    intro i
    rcases cover3 l.rcu3.readIdx l.rcu3.updateIdx l.rcu3.relayIdx i hd1 hd2 hd3
      with hi | hi | hi
    · rw [hi, Function.update_same]
    · rw [hi, Function.update_noteq (Ne.symm hd1)]; exact hu
    · rw [hi, Function.update_noteq (Ne.symm hd2)]; exact hy
  show Function.update l.rcu3.vals l.rcu3.readIdx 0 0 +
      Function.update l.rcu3.vals l.rcu3.readIdx 0 1 +
      Function.update l.rcu3.vals l.rcu3.readIdx 0 2 = 0
  rw [hz 0, hz 1, hz 2, add_zero, add_zero]

lemma collect_split {l : Local M} (h : LInv l) :
    slotSum l = (Local.Collect l).1 + slotSum (Local.Collect l).2 := by
  obtain ⟨hst, ⟨hd1, hd2, hd3⟩, hu, hy⟩ := h
  rw [collect_pend_zero ⟨hst, ⟨hd1, hd2, hd3⟩, hu, hy⟩, add_zero, collect_fst]
  refine sum3_eq_of l.rcu3.vals l.rcu3.readIdx ?_
  intro i hi
  rcases cover3 l.rcu3.readIdx l.rcu3.updateIdx l.rcu3.relayIdx i hd1 hd2 hd3
    with q | q | q
  · exact absurd q hi
  · rw [q]; exact hu
  · rw [q]; exact hy

lemma getHandle_mem :
    ∀ (ts : List (Option (Local M))) (n : ℕ) (l : Local M),
      getHandle ts n = some l → some l ∈ ts := by
  intro ts
  induction ts with
  | nil => intro n l h; exact Option.noConfusion h
  | cons x ts ih =>
    intro n l h
    cases n with
    | zero =>
      have hx : x = some l := h
      rw [← hx]
      exact List.mem_cons_self x ts
    | succ n => exact List.mem_cons_of_mem x (ih n l h)

lemma mem_set_cases {A : Type} :
    ∀ (ts : List A) (n : ℕ) (a x : A), x ∈ ts.set n a → x ∈ ts ∨ x = a := by
  intro ts
  induction ts with
  | nil => intro n a x h; left; exact h
  | cons b ts ih =>
    intro n a x h
    cases n with
    | zero =>
      rcases List.mem_cons.mp h with q | q
      · exact Or.inr q
      · exact Or.inl (List.mem_cons_of_mem b q)
    | succ n =>
      rcases List.mem_cons.mp h with q | q
      · exact Or.inl (q ▸ List.mem_cons_self b ts)
      · rcases ih n a x q with w | w
        · exact Or.inl (List.mem_cons_of_mem b w)
        · exact Or.inr w

lemma map_split_set (f : Option (Local M) → M) :
    ∀ (ts : List (Option (Local M))) (n : ℕ) (l : Local M),
      getHandle ts n = some l → ∀ a : Option (Local M),
      ∃ S : M, (ts.map f).sum = S + f (some l) ∧
        ((ts.set n a).map f).sum = S + f a := by
  intro ts
  induction ts with
  | nil => intro n l h; exact Option.noConfusion h
  | cons x ts ih =>
    intro n l h a
    cases n with
    | zero =>
      have hx : x = some l := h
      subst hx
      refine ⟨(ts.map f).sum, ?_, ?_⟩
      · simp only [List.map_cons, List.sum_cons]; abel
      · simp only [List.set, List.map_cons, List.sum_cons]; abel
    | succ n =>
      obtain ⟨S, e1, e2⟩ := ih n l h a
      refine ⟨f x + S, ?_, ?_⟩
      · simp only [List.map_cons, List.sum_cons, e1]; abel
      · simp only [List.set, List.map_cons, List.sum_cons, e2]; abel

lemma make_LInv : LInv (Local.make (M := M)) := by
  refine ⟨rfl, ⟨?_, ?_, ?_⟩, rfl, rfl⟩ <;>
    simp [Local.make, Local3StateRcu.ForceUpdate, Local3StateRcu.fresh,
      Fin.ext_iff]

lemma make_slotSum : slotSum (Local.make (M := M)) = 0 := by
  show (0 : M) + 0 + 0 = 0
  rw [add_zero, add_zero]

lemma sum3_update_add (f : Fin 3 → M) (r : Fin 3) (v : M) :
    Function.update f r (f r + v) 0 + Function.update f r (f r + v) 1 +
      Function.update f r (f r + v) 2 = f 0 + f 1 + f 2 + v := by
  simp only [Function.update_apply]
  fin_cases r <;> simp <;> abel

lemma write_slotSum (l : Local M) (v : M) :
    slotSum (l.write v) = slotSum l + v :=
  sum3_update_add l.rcu3.vals l.rcu3.readIdx v

lemma write_LInv {l : Local M} (h : LInv l) (v : M) : LInv (l.write v) := by
  obtain ⟨hst, ⟨hd1, hd2, hd3⟩, hu, hy⟩ := h
  refine ⟨hst, ⟨hd1, hd2, hd3⟩, ?_, ?_⟩
  · show Function.update l.rcu3.vals l.rcu3.readIdx _ l.rcu3.updateIdx = 0
    rw [Function.update_noteq (Ne.symm hd1)]; exact hu
  · show Function.update l.rcu3.vals l.rcu3.readIdx _ l.rcu3.relayIdx = 0
    rw [Function.update_noteq (Ne.symm hd2)]; exact hy

lemma snapEnd_rcu3 {l : Local M} (h : l.rcu3.staged = true) :
    (l.snapEnd).rcu3 = l.rcu3 := by
  by_cases hd : l.depth - 1 = 0 <;>
    simp [Local.snapEnd, Local3StateRcu.TryRead, h, hd]

lemma after_OInv {o : Option (Local M)} (h : OInv o) : OInv (afterCollect o) := by
  cases o with
  | none => trivial
  | some l => exact collect_LInv h

lemma pend_after (ts : List (Option (Local M))) (h : ∀ o ∈ ts, OInv o) :
    ((ts.map afterCollect).map pendOf).sum = 0 := by
  induction ts with
  | nil => rfl
  | cons x ts ih =>
    simp only [List.map_cons, List.sum_cons]
    rw [ih (fun o ho => h o (List.mem_cons_of_mem x ho))]
    rw [add_zero]
    have hx : OInv x := h x (List.mem_cons_self x ts)
    cases x with
    | none => rfl
    | some l => exact collect_pend_zero hx

lemma pend_extract (ts : List (Option (Local M))) (h : ∀ o ∈ ts, OInv o) :
    (ts.map pendOf).sum = (ts.map extractOf).sum := by
  induction ts with
  | nil => rfl
  | cons x ts ih =>
    simp only [List.map_cons, List.sum_cons]
    rw [ih (fun o ho => h o (List.mem_cons_of_mem x ho))]
    have hx : OInv x := h x (List.mem_cons_self x ts)
    cases x with
    | none => rfl
    | some l =>
      show slotSum l + _ = (Local.Collect l).1 + _
      rw [collect_split hx, collect_pend_zero hx, add_zero]

lemma good_step (s : ReverseRcu M) (e : Ev M) (h : Good s) :
    Good (exec s e) := by
  obtain ⟨hmem, hsum⟩ := h
  cases e with
  | create =>
    refine ⟨?_, ?_⟩
    · intro o ho
      rcases List.mem_append.mp ho with q | q
      · exact hmem o q
      · rw [List.mem_singleton.mp q]; exact make_LInv
    · show s.outs.sum +
          (s.value + ((s.threads ++ [some Local.make]).map pendOf).sum) =
          s.written
      rw [List.map_append, List.sum_append]
      have : ([some (Local.make (M := M))].map pendOf).sum = 0 := by
        show slotSum (Local.make (M := M)) + 0 = 0
        rw [make_slotSum, add_zero]
      rw [this, add_zero]
      exact hsum
  | destroy n =>
    cases hget : getHandle s.threads n with
    | none => simp only [exec, hget]; exact ⟨hmem, hsum⟩
    | some l =>
      have hl : LInv l := hmem (some l) (getHandle_mem s.threads n l hget)
      have hval : (Local.Collect l).1 = slotSum l := by
        rw [collect_split hl, collect_pend_zero hl, add_zero]
      obtain ⟨S, e1, e2⟩ := map_split_set pendOf s.threads n l hget none
      have e1s : (s.threads.map pendOf).sum = S + slotSum l := e1
      have e2s : ((s.threads.set n none).map pendOf).sum = S + 0 := e2
      simp only [exec, hget]
      refine ⟨?_, ?_⟩
      · intro o ho
        rcases mem_set_cases s.threads n none o ho with q | q
        · exact hmem o q
        · rw [q]; trivial
      · show s.outs.sum + (s.value + (Local.Collect l).1 +
            ((s.threads.set n none).map pendOf).sum) = s.written
        rw [hval, e2s, add_zero, ← hsum, e1s]
        abel
  | snap n =>
    cases hget : getHandle s.threads n with
    | none => simp only [exec, hget]; exact ⟨hmem, hsum⟩
    | some l =>
      have hl : LInv l := hmem (some l) (getHandle_mem s.threads n l hget)
      obtain ⟨S, e1, e2⟩ :=
        map_split_set pendOf s.threads n l hget (some l.snapBegin)
      have e1s : (s.threads.map pendOf).sum = S + slotSum l := e1
      have e2s : ((s.threads.set n (some l.snapBegin)).map pendOf).sum =
        S + slotSum l := e2
      simp only [exec, hget]
      refine ⟨?_, ?_⟩
      · intro o ho
        rcases mem_set_cases s.threads n (some l.snapBegin) o ho with q | q
        · exact hmem o q
        · rw [q]; exact hl
      · show s.outs.sum + (s.value +
            ((s.threads.set n (some l.snapBegin)).map pendOf).sum) = s.written
        rw [e2s, ← hsum, e1s]
  | unsnap n =>
    cases hget : getHandle s.threads n with
    | none => simp only [exec, hget]; exact ⟨hmem, hsum⟩
    | some l =>
      have hl : LInv l := hmem (some l) (getHandle_mem s.threads n l hget)
      have hrc : (l.snapEnd).rcu3 = l.rcu3 := snapEnd_rcu3 hl.1
      have hinv : LInv l.snapEnd := by unfold LInv; rw [hrc]; exact hl
      have hss : slotSum l.snapEnd = slotSum l := by unfold slotSum; rw [hrc]
      obtain ⟨S, e1, e2⟩ :=
        map_split_set pendOf s.threads n l hget (some l.snapEnd)
      have e1s : (s.threads.map pendOf).sum = S + slotSum l := e1
      have e2s : ((s.threads.set n (some l.snapEnd)).map pendOf).sum =
        S + slotSum l.snapEnd := e2
      simp only [exec, hget]
      refine ⟨?_, ?_⟩
      · intro o ho
        rcases mem_set_cases s.threads n (some l.snapEnd) o ho with q | q
        · exact hmem o q
        · rw [q]; exact hinv
      · show s.outs.sum + (s.value +
            ((s.threads.set n (some l.snapEnd)).map pendOf).sum) = s.written
        rw [e2s, hss, ← hsum, e1s]
  | write n v =>
    cases hget : getHandle s.threads n with
    | none => simp only [exec, hget]; exact ⟨hmem, hsum⟩
    | some l =>
      have hl : LInv l := hmem (some l) (getHandle_mem s.threads n l hget)
      obtain ⟨S, e1, e2⟩ :=
        map_split_set pendOf s.threads n l hget (some (l.write v))
      have e1s : (s.threads.map pendOf).sum = S + slotSum l := e1
      have e2s : ((s.threads.set n (some (l.write v))).map pendOf).sum =
        S + slotSum (l.write v) := e2
      simp only [exec, hget]
      refine ⟨?_, ?_⟩
      · intro o ho
        rcases mem_set_cases s.threads n (some (l.write v)) o ho with q | q
        · exact hmem o q
        · rw [q]; exact write_LInv hl v
      · show s.outs.sum + (s.value +
            ((s.threads.set n (some (l.write v))).map pendOf).sum) =
            s.written + v
        rw [e2s, write_slotSum, ← hsum, e1s]
        abel
  | collect =>
    refine ⟨?_, ?_⟩
    · intro o ho
      rcases List.mem_map.mp ho with ⟨x, hx, hox⟩
      rw [← hox]
      exact after_OInv (hmem x hx)
    · show (s.outs ++ [s.value + (s.threads.map extractOf).sum]).sum +
          (0 + ((s.threads.map afterCollect).map pendOf).sum) = s.written
      rw [List.sum_append, pend_after s.threads hmem, ← pend_extract s.threads hmem]
      show s.outs.sum + (s.value + (s.threads.map pendOf).sum + 0) + (0 + 0) =
        s.written
      rw [← hsum]
      abel

lemma good_run_aux :
    ∀ (t : List (Ev M)) (s : ReverseRcu M), Good s → Good (t.foldl exec s) := by
  intro t
  induction t with
  | nil => intro s h; exact h
  | cons e t ih => intro s h; exact ih (exec s e) (good_step s e h)

lemma good_start : Good (startSys (M := M)) := by
  refine ⟨?_, ?_⟩
  · intro o ho; cases ho
  · show (0 : M) + (0 + 0) = 0
    rw [add_zero, add_zero]

lemma good_run (t : List (Ev M)) : Good (run t) :=
  good_run_aux t startSys good_start

/-- C1: exactly-once delivery.  For every finite sequence of operations on a
collector (any number of producer handles created, written through possibly
nested sessions, possibly destroyed, with `Collect()` called any number of
times), finishing with one more `Collect()`, the combine-fold of all values
returned by the `Collect()` calls equals the combine-fold of all values
written (`written` accumulates exactly the amounts applied by write events
to live handles).  Since this equality holds for an arbitrary monoid and for
every trace — in particular for every prefix extended by a final
`Collect()` — no written unit is ever counted in two different `Collect()`
results, and every unit written before a `Collect()` returns is included in
that call or a strictly later one. -/
theorem reverse_rcu_exactly_once (t : List (Ev M)) :
    ((run (t ++ [Ev.collect])).outs).sum =
      (run (t ++ [Ev.collect])).written := by
  have hrun : run (t ++ [Ev.collect]) = exec (run t) Ev.collect := by
    unfold run
    rw [List.foldl_append]
    rfl
  obtain ⟨hmem, hsum⟩ := good_run (M := M) t
  rw [hrun]
  show ((run t).outs ++
      [(run t).value + ((run t).threads.map extractOf).sum]).sum =
    (run t).written
  rw [List.sum_append, List.sum_singleton,
    ← pend_extract (run t).threads hmem]
  exact hsum

lemma getHandle_append :
    ∀ (ts : List (Option (Local M))) (x : Option (Local M)),
      getHandle (ts ++ [x]) ts.length = x := by
  intro ts x
  induction ts with
  | nil => rfl
  | cons a ts ih => exact ih

/-- C8: fresh-handle visibility.  The constructor of a producer handle calls
`ForceUpdate()` on its rotator and then inserts the handle into the
registry of the collector: after `create`, the registry holds `Local.make` —
whose rotator is the force-committed fresh rotator, relay `Staged` — at the
new index, and a `Collect()` issued right after the construction, before
any write, folds in exactly the default contribution of that handle `T()`: its
result is the same as the result `Collect()` would have produced without
the new handle. -/
theorem fresh_handle_visibility (s : ReverseRcu M) :
    getHandle (exec s Ev.create).threads s.threads.length =
      some (Local.make (M := M)) ∧
    (Local.make (M := M)).rcu3 =
      Local3StateRcu.ForceUpdate Local3StateRcu.fresh ∧
    (Local.make (M := M)).rcu3.staged = true ∧
    (exec (exec s Ev.create) Ev.collect).outs =
      s.outs ++ [s.value + (s.threads.map extractOf).sum] ∧
    (exec s Ev.collect).outs =
      s.outs ++ [s.value + (s.threads.map extractOf).sum] := by
  refine ⟨?_, rfl, rfl, ?_, rfl⟩
  · show getHandle (s.threads ++ [some Local.make]) s.threads.length = _
    exact getHandle_append s.threads (some Local.make)
  · have hz : ((s.threads ++ [some (Local.make (M := M))]).map extractOf).sum
        = (s.threads.map extractOf).sum := by
      rw [List.map_append, List.sum_append]
      show (s.threads.map extractOf).sum + ((0 : M) + 0) = _
      rw [add_zero, add_zero]
    simp only [exec]
    rw [hz]

instance [DecidableEq M] (l : Local M) : Decidable (LInv l) := by
  unfold LInv; infer_instance

/-- C7: extract-for-collection postcondition.  For every producer-handle
state satisfying the collector-flow invariant `LInv` (which holds for all
reachable handle states, as established in the `Good` preservation proof),
`Local::Collect` first force-commits whatever is currently in the
write slot of the handle — so its result is exactly the value readable through the
write reference of the handle — then swaps the value of that now-readable slot out
for the default `T()` and returns the swapped-out value; consequently a
second `Collect` with no intervening writes returns the default value `0`
(no double-counting). -/
theorem extract_for_collection_postcondition (l : Local M) (h : LInv l) :
    (Local.Collect l).1 = l.rcu3.Read ∧
    ((Local.Collect l).2).rcu3.Update = 0 ∧
    (Local.Collect ((Local.Collect l).2)).1 = 0 := by
  obtain ⟨hst, ⟨hd1, hd2, hd3⟩, hu, hy⟩ := h
  refine ⟨rfl, ?_, ?_⟩
  · show Function.update (Local3StateRcu.ForceUpdate l.rcu3).vals
      (Local3StateRcu.ForceUpdate l.rcu3).updateIdx 0
      (Local3StateRcu.ForceUpdate l.rcu3).updateIdx = 0
    exact Function.update_same _ _ _
  · show Function.update l.rcu3.vals l.rcu3.readIdx 0 l.rcu3.relayIdx = 0
    rw [Function.update_noteq (Ne.symm hd2)]
    exact hy

/-- A producer handle that was registered and then wrote 5 through a
session. -/
def sampleLocal : Local ℤ := Local.write Local.make 5

/-- Witness for C7 at a concrete handle state: the registered handle that
wrote 5 satisfies the invariant; its extraction returns its write-slot
content, and a second extraction returns 0. -/
theorem extract_for_collection_witness :
    LInv sampleLocal ∧
    (Local.Collect sampleLocal).1 = sampleLocal.rcu3.Read ∧
    (Local.Collect ((Local.Collect sampleLocal).2)).1 = 0 :=
  ⟨by decide,
   (extract_for_collection_postcondition sampleLocal (by decide)).1,
   (extract_for_collection_postcondition sampleLocal (by decide)).2.2⟩

end ReverseRcu

/-- The events one producer thread can perform on its handle between
collector interactions: construct another `Snapshot` (via `Write()` or the
`Snapshot` copy/move constructors — all of which delegate to
`Snapshot(Local&)`), destroy the innermost `Snapshot`, or write through a
live session. -/
inductive LEv (M : Type) where
  | snap
  | unsnap
  | write (v : M)

/-- Apply one session event to a handle. -/
def lstep (l : Local M) : LEv M → Local M
  | .snap => l.snapBegin
  | .unsnap => l.snapEnd
  | .write v => l.write v

/-- Run a sequence of session events on a handle. -/
def lrun (l : Local M) : List (LEv M) → Local M := List.foldl lstep l

/-- Checks that after every event of the list the depth counter of the handle is
still at least 1 — that is, the outermost session stays open throughout. -/
def depthPos (l : Local M) : List (LEv M) → Bool
  | [] => true
  | e :: es => (decide (1 ≤ (lstep l e).depth)) && depthPos (lstep l e) es

/-- C6: reentrancy stability.  `Snapshot` construction — copy, move and
`Write()` alike — increments the depth counter of the owning handle and leaves
the rotator untouched, so every live session dereferences to the same
underlying slot; destruction decrements the counter (the publish
`TryRead()` being attempted only when it reaches zero, see `Local.snapEnd`);
consequently, over any sequence of session events throughout which the
depth counter stays positive — i.e. until the outermost session is
destroyed — the identity of the slot backing the write sessions never
changes. -/
theorem nested_session_slot_stability (l : Local M) (es : List (LEv M))
    (h : depthPos l es = true) :
    (lrun l es).rcu3.readIdx = l.rcu3.readIdx ∧
    (l.snapBegin).depth = l.depth + 1 ∧ (l.snapBegin).rcu3 = l.rcu3 ∧
    (l.snapEnd).depth = l.depth - 1 := by
  refine ⟨?_, rfl, rfl, ?_⟩
  · induction es generalizing l with
    | nil => rfl
    | cons e es ih =>
      rw [depthPos, Bool.and_eq_true] at h
      obtain ⟨h1, h2⟩ := h
      have hd : 1 ≤ (lstep l e).depth := of_decide_eq_true h1
      have hrest : (lrun (lstep l e) es).rcu3.readIdx =
          (lstep l e).rcu3.readIdx := ih (lstep l e) h2
      show (lrun (lstep l e) es).rcu3.readIdx = l.rcu3.readIdx
      rw [hrest]
      cases e with
      | snap => rfl
      | write v => rfl
      | unsnap =>
        by_cases hc : l.depth - 1 = 0
        · simp only [lstep, Local.snapEnd, hc, if_true] at hd
          omega
        · simp [lstep, Local.snapEnd, hc]
  · by_cases hc : l.depth - 1 = 0 <;> simp [Local.snapEnd, hc]

/-- Witness for C6: a nest of three sessions on a registered handle (outer
session open, then an inner session with a write); the depth stays
positive, and the write-slot identity is unchanged. -/
theorem nested_session_slot_stability_witness :
    depthPos (Local.snapBegin (Local.make (M := ℤ)))
      [LEv.snap, LEv.write 3, LEv.unsnap] = true ∧
    (lrun (Local.snapBegin (Local.make (M := ℤ)))
      [LEv.snap, LEv.write 3, LEv.unsnap]).rcu3.readIdx =
      (Local.snapBegin (Local.make (M := ℤ))).rcu3.readIdx :=
  ⟨by decide,
   (nested_session_slot_stability (Local.snapBegin (Local.make (M := ℤ)))
     [LEv.snap, LEv.write 3, LEv.unsnap] (by decide)).1⟩

/-- The lifetime events of the `Snapshot` objects borrowed from one handle:
a construction (`Write()`, copy construction, or move construction — the
move constructor also just re-borrows the handle via `Snapshot(Local&)`
without deactivating its source) and a destruction (which every `Snapshot`,
including moved-from ones, performs). -/
inductive SEv where
  | construct
  | destroy

/-- Apply one snapshot lifetime event to a handle paired with the number of
`Snapshot` objects currently alive. -/
def sstep (p : Local M × ℕ) : SEv → Local M × ℕ
  | .construct => (p.1.snapBegin, p.2 + 1)
  | .destroy => (p.1.snapEnd, p.2 - 1)

/-- Run a sequence of snapshot lifetime events. -/
def srun (p : Local M × ℕ) : List SEv → Local M × ℕ := List.foldl sstep p

/-- Well-formedness of a snapshot lifetime trace: only alive `Snapshot`
objects are destroyed. -/
def swf (p : Local M × ℕ) : List SEv → Bool
  | [] => true
  | SEv.construct :: es => swf (sstep p SEv.construct) es
  | SEv.destroy :: es => (decide (1 ≤ p.2)) && swf (sstep p SEv.destroy) es

/-- C10: a moved-from `Snapshot` remains active — every construction,
including move construction, increments the depth counter, and every
destruction, including that of a moved-from `Snapshot`, decrements it.
Hence after any well-formed sequence of constructions, copies, moves and
destructions, the depth counter equals the number of `Snapshot` objects
alive (in particular it is never negative), and the end-of-session publish
`TryRead()` is attempted at a destruction exactly when the counter reaches
zero — when all of them, moved-from ones included, are destroyed. -/
theorem snapshot_depth_alive_count (l : Local M) (a : ℕ) (es : List SEv)
    (hd : l.depth = (a : ℤ)) (hwf : swf (l, a) es = true) :
    (srun (l, a) es).1.depth = ((srun (l, a) es).2 : ℤ) ∧
    0 ≤ (srun (l, a) es).1.depth ∧
    (∀ q : Local M, (q.snapEnd).rcu3 =
      (if q.depth - 1 = 0 then (Local3StateRcu.TryRead q.rcu3).1
       else q.rcu3)) := by
  have main : ∀ (es : List SEv) (l : Local M) (a : ℕ), l.depth = (a : ℤ) →
      swf (l, a) es = true →
      (srun (l, a) es).1.depth = ((srun (l, a) es).2 : ℤ) := by
    intro es
    induction es with
    | nil => intro l a h _; exact h
    | cons e es ih =>
      intro l a h hwf
      cases e with
      | construct =>
        have hdep : (l.snapBegin).depth = ((a + 1 : ℕ) : ℤ) := by
          show l.depth + 1 = ((a + 1 : ℕ) : ℤ)
          rw [h]
          push_cast
          ring
        exact ih l.snapBegin (a + 1) hdep hwf
      | destroy =>
        rw [swf, Bool.and_eq_true] at hwf
        obtain ⟨h1, h2⟩ := hwf
        have ha : 1 ≤ a := of_decide_eq_true h1
        have hdep : (l.snapEnd).depth = ((a - 1 : ℕ) : ℤ) := by
          have hse : (l.snapEnd).depth = l.depth - 1 := by
            by_cases hc : l.depth - 1 = 0 <;> simp [Local.snapEnd, hc]
          rw [hse, h]
          omega
        exact ih l.snapEnd (a - 1) hdep h2
  have h1 := main es l a hd hwf
  refine ⟨h1, ?_, ?_⟩
  · rw [h1]
    exact Int.natCast_nonneg _
  · intro q
    by_cases hc : q.depth - 1 = 0 <;> simp [Local.snapEnd, hc]

/-- Witness for C10: two constructions (a `Write()` and a move) followed by
the two destructions, starting from a registered handle with no live
session: the final depth equals the final alive count. -/
theorem snapshot_depth_alive_count_witness :
    (Local.make (M := ℤ)).depth = ((0 : ℕ) : ℤ) ∧
    swf (Local.make (M := ℤ), 0)
      [SEv.construct, SEv.construct, SEv.destroy, SEv.destroy] = true ∧
    (srun (Local.make (M := ℤ), 0)
      [SEv.construct, SEv.construct, SEv.destroy, SEv.destroy]).1.depth =
      ((srun (Local.make (M := ℤ), 0)
        [SEv.construct, SEv.construct, SEv.destroy, SEv.destroy]).2 : ℤ) :=
  ⟨by decide, by decide,
   (snapshot_depth_alive_count (Local.make (M := ℤ)) 0
     [SEv.construct, SEv.construct, SEv.destroy, SEv.destroy]
     (by decide) (by decide)).1⟩

end SimpleRcu
